import Mathlib

/-!
# Verification of the Maasai watermark tool's compositing and batch logic

Shallow embedding of the watermarking application's core logic:

* the compositor `applyWatermarkToImage` (utils/watermark, lines 24–154) is
  embedded as `applyWatermark`, a total function from the two raster sizes and
  the settings record to either a validation error or the list of canvas draw
  commands it issues (each draw command records the canvas state — filter,
  alpha, shadow — in force when it is issued);
* the batch orchestration `executeBatchProcessing` (App.tsx, lines 114–176) is
  embedded as `processBatch` / `batchReport`, with the outcome of the
  asynchronous compositor call for each item abstracted as a function from the
  item to `Except String String` (error message or output blob URL);
* the settings persistence (App.tsx, lines 19–48) is embedded at the JSON-value
  level, and the download-filename computation (App.tsx, lines 160–168) over
  explicit JavaScript string primitives.

JavaScript numbers are modelled as exact rationals (`ℚ`); the one place where
IEEE-754 non-finite values matter (a zero-width logo producing an infinite
aspect ratio, compositor lines 73–75) is modelled separately by `JSVal`.
-/

namespace Watermark

/-- Decidable equality of `Except` results, for evaluating the model at
concrete inputs. -/
instance {ε α : Type} [DecidableEq ε] [DecidableEq α] : DecidableEq (Except ε α)
  | .ok a, .ok b => decidable_of_iff (a = b) (by simp)
  | .ok _, .error _ => isFalse (by simp)
  | .error _, .ok _ => isFalse (by simp)
  | .error a, .error b => decidable_of_iff (a = b) (by simp)

/-- The `position` union of the shared `WatermarkSettings` TypeScript type. -/
inductive Position
  | center
  | topLeft
  | topRight
  | bottomLeft
  | bottomRight
  | tiled
deriving DecidableEq

/-- The `outputFormat` union: `image/jpeg`, `image/png`, `image/webp`. -/
inductive OutputFormat
  | jpeg
  | png
  | webp
deriving DecidableEq

/-- The `WatermarkSettings` TypeScript interface, field for field. -/
structure WatermarkSettings where
  opacity : ℚ
  scale : ℚ
  position : Position
  margin : ℚ
  outputFormat : OutputFormat
  shadow : Bool
  brightness : ℚ
  contrast : ℚ
  saturation : ℚ
deriving DecidableEq

/-- A decoded raster (an `HTMLImageElement` after load): its pixel size. -/
structure Raster where
  width : ℚ
  height : ℚ
deriving DecidableEq

/-- The validation errors thrown by `applyWatermarkToImage` (lines 43–50). -/
inductive WatermarkError
  | imageTooLarge (name : String) (width height : ℚ)
  | invalidDimensions (name : String)
deriving DecidableEq

/-- The message text of each thrown error, as built by the compositor. -/
def WatermarkError.message : WatermarkError → String
  | .imageTooLarge name w h =>
      "Image \"" ++ name ++ "\" is too large (" ++ toString w ++ "x" ++ toString h ++
        "). Max allowed dimension is " ++ toString (16384 : ℚ) ++ "px."
  | .invalidDimensions name =>
      "Image \"" ++ name ++ "\" has invalid dimensions."

/-- The combined CSS color filter set on the context (line 63). -/
structure ColorFilter where
  brightness : ℚ
  contrast : ℚ
  saturation : ℚ
deriving DecidableEq

/-- Shadow configuration set when `settings.shadow` is on (lines 80–85). -/
structure ShadowCfg where
  blur : ℚ
  offsetX : ℚ
  offsetY : ℚ
deriving DecidableEq

/-- One canvas draw, together with the context state in force when issued:
`drawSource` is `ctx.drawImage(img, 0, 0)` with the current filter;
`drawLogo x y w h alpha shadow filter` is `ctx.drawImage(logo, x, y, w, h)`
with the current global alpha, shadow configuration and filter. -/
inductive DrawCmd
  | drawSource (filter : Option ColorFilter)
  | drawLogo (x y w h alpha : ℚ) (shadow : Option ShadowCfg) (filter : Option ColorFilter)
deriving DecidableEq

/-- Number of iterations of a JavaScript loop
`for (let v = 0; v < limit; v += step)` (exact arithmetic): the visited values
are `i * step` for `i < stepCount limit step`.  For `step ≤ 0` the JavaScript
loop would not terminate when `limit > 0`; the model is only consulted for
`0 < step`. -/
def stepCount (limit step : ℚ) : ℕ :=
  if 0 < step then (⌈limit / step⌉).toNat else 0

/-- The tiled draw positions of lines 96–102: outer loop over x stepping
`gap = logoWidth * 1.5`, inner loop over y stepping `gap * aspect`. -/
def tiledPositionList (img : Raster) (logoWidth aspect : ℚ) : List (ℚ × ℚ) :=
  (List.range (stepCount img.width (logoWidth * 1.5))).flatMap fun (i : ℕ) =>
    (List.range (stepCount img.height (logoWidth * 1.5 * aspect))).map fun (j : ℕ) =>
      ((i : ℚ) * (logoWidth * 1.5), (j : ℚ) * (logoWidth * 1.5 * aspect))

/-- The non-tiled placement switch of lines 104–128.  The `tiled` case is
unreachable from `applyWatermark` (callers branch on `tiled` first); it yields
the initialisation values `x = 0; y = 0` of lines 104–105, mirroring the
absent `default` case of the switch. -/
def nonTiledPos (img : Raster) (logoWidth logoHeight marginX marginY : ℚ) :
    Position → ℚ × ℚ
  | .topLeft => (marginX, marginY)
  | .topRight => (img.width - logoWidth - marginX, marginY)
  | .bottomLeft => (marginX, img.height - logoHeight - marginY)
  | .bottomRight => (img.width - logoWidth - marginX, img.height - logoHeight - marginY)
  | .center => ((img.width - logoWidth) / 2, (img.height - logoHeight) / 2)
  | .tiled => (0, 0)

/-- Lines 62–64: the combined color filter is set on the context only when at
least one of brightness/contrast/saturation differs from 100. -/
def srcFilterOf (s : WatermarkSettings) : Option ColorFilter :=
  if s.brightness ≠ 100 ∨ s.contrast ≠ 100 ∨ s.saturation ≠ 100 then
    some ⟨s.brightness, s.contrast, s.saturation⟩
  else none

/-- Lines 80–91: shadow configuration, scaled from the larger source
dimension, or no shadow at all. -/
def shadowCfgOf (img : Raster) (s : WatermarkSettings) : Option ShadowCfg :=
  if s.shadow then
    some ⟨max img.width img.height * 0.01,
          max img.width img.height * 0.003,
          max img.width img.height * 0.003⟩
  else none

/-- The compositor `applyWatermarkToImage` (lines 24–154), from the point where
both rasters have decoded: dimension validation (lines 43–50), optional color
filter (lines 62–64), source draw (line 67), filter reset (line 70), logo
geometry (lines 73–75), alpha (line 77), shadow (lines 80–91), margins
(lines 93–94) and placement (lines 96–130).  The result is the issued draw
commands; encoding (lines 140–148) is outside the model.  Every validation
failure is an `Except.error` value, i.e. a thrown, catchable rejection. -/
def applyWatermark (imageName : String) (img logo : Raster) (s : WatermarkSettings) :
    Except WatermarkError (List DrawCmd) :=
  if img.width > 16384 ∨ img.height > 16384 then
    .error (.imageTooLarge imageName img.width img.height)
  else if img.width = 0 ∨ img.height = 0 then
    .error (.invalidDimensions imageName)
  else
    let logoWidth := img.width * s.scale / 100
    let aspect := logo.height / logo.width
    let logoHeight := logoWidth * aspect
    let alpha := s.opacity / 100
    let marginX := img.width * s.margin / 100
    let marginY := img.height * s.margin / 100
    let logoDraws : List (ℚ × ℚ) :=
      if s.position = .tiled then
        tiledPositionList img logoWidth aspect
      else
        [nonTiledPos img logoWidth logoHeight marginX marginY s.position]
    .ok (DrawCmd.drawSource (srcFilterOf s) ::
      logoDraws.map fun p =>
        DrawCmd.drawLogo p.1 p.2 logoWidth logoHeight alpha (shadowCfgOf img s) none)

/-- Comparison point for the no-op filter claim: the identical pipeline with no
color filter ever set (the run the specification describes as "no filter set at
all"). -/
def applyWatermarkNoFilter (imageName : String) (img logo : Raster)
    (s : WatermarkSettings) : Except WatermarkError (List DrawCmd) :=
  if img.width > 16384 ∨ img.height > 16384 then
    .error (.imageTooLarge imageName img.width img.height)
  else if img.width = 0 ∨ img.height = 0 then
    .error (.invalidDimensions imageName)
  else
    let logoWidth := img.width * s.scale / 100
    let aspect := logo.height / logo.width
    let logoHeight := logoWidth * aspect
    let alpha := s.opacity / 100
    let marginX := img.width * s.margin / 100
    let marginY := img.height * s.margin / 100
    let logoDraws : List (ℚ × ℚ) :=
      if s.position = .tiled then
        tiledPositionList img logoWidth aspect
      else
        [nonTiledPos img logoWidth logoHeight marginX marginY s.position]
    .ok (DrawCmd.drawSource none ::
      logoDraws.map fun p =>
        DrawCmd.drawLogo p.1 p.2 logoWidth logoHeight alpha (shadowCfgOf img s) none)

/-- The placement table transcribed from the specification (claim side of the
refinement): draw coordinates in terms of source size `W × H`, draw size
`dw × dh` and margin percentage `m`. -/
def claimedNonTiledPos (W H dw dh m : ℚ) : Position → ℚ × ℚ
  | .topLeft => (W * m / 100, H * m / 100)
  | .topRight => (W - dw - W * m / 100, H * m / 100)
  | .bottomLeft => (W * m / 100, H - dh - H * m / 100)
  | .bottomRight => (W - dw - W * m / 100, H - dh - H * m / 100)
  | .center => ((W - dw) / 2, (H - dh) / 2)
  | .tiled => (0, 0)

/-! ## JavaScript float semantics for the aspect-ratio computation

`applyWatermark` above uses exact rationals, whose division-by-zero convention
(`a / 0 = 0`) differs from IEEE-754.  For the degenerate-logo analysis the
relevant fragment of double arithmetic is modelled exactly: division of two
finite values and multiplication of a finite value by a possibly non-finite
one, which is all that lines 73–75 of the compositor perform. -/

/-- A JavaScript number in the aspect-ratio computation: a finite value (exact
rational), one of the two infinities, or NaN. -/
inductive JSVal
  | fin (q : ℚ)
  | posInf
  | negInf
  | nan
deriving DecidableEq

/-- IEEE-754 division of two finite doubles: `a / 0` is `±Infinity` for
nonzero `a` (sign of `a`) and `NaN` for `0 / 0`. -/
def jsDiv (a b : ℚ) : JSVal :=
  if b = 0 then
    if 0 < a then .posInf else if a < 0 then .negInf else .nan
  else .fin (a / b)

/-- IEEE-754 multiplication of a finite double by a possibly non-finite one:
`finite * ±Infinity` keeps the (signed) infinity unless the finite factor is
`0`, in which case the product is `NaN`; anything times `NaN` is `NaN`. -/
def jsMul (a : ℚ) : JSVal → JSVal
  | .fin b => .fin (a * b)
  | .posInf => if 0 < a then .posInf else if a < 0 then .negInf else .nan
  | .negInf => if 0 < a then .negInf else if a < 0 then .posInf else .nan
  | .nan => .nan

/-- Whether a JavaScript number is finite. -/
def JSVal.isFinite : JSVal → Bool
  | .fin _ => true
  | _ => false

/-- Lines 73–75 of the compositor in JavaScript float semantics:
`logoWidth = imgWidth * scale / 100`, `aspect = logoHeight' / logoWidth'` of
the logo raster, `logoHeight = logoWidth * aspect`. -/
def logoDrawHeightJS (imgWidth scale logoW logoH : ℚ) : JSVal :=
  jsMul (imgWidth * scale / 100) (jsDiv logoH logoW)

/-! ## Batch orchestration (`executeBatchProcessing`, App.tsx 114–176) -/

/-- The `status` union of the `ProcessedImage` TypeScript interface. -/
inductive ItemStatus
  | pending
  | processing
  | done
  | error
deriving DecidableEq

/-- The `ProcessedImage` interface: `name` stands for `originalFile.name` (the
file handle itself carries no further state the orchestrator reads). -/
structure ProcessedImage where
  id : String
  name : String
  previewUrl : String
  status : ItemStatus
  errorMessage : Option String
deriving DecidableEq

/-- One entry of the aggregate report's `failures` list (App.tsx 136–142). -/
structure BatchFailure where
  id : String
  name : String
  error : String
deriving DecidableEq

/-- The aggregate report `batchErrorResults` (App.tsx 146–152). -/
structure BatchReport where
  total : ℕ
  success : ℕ
  failures : List BatchFailure
deriving DecidableEq

/-- The per-item body of the `Promise.all` map (App.tsx 122–130).  `run`
abstracts the settled outcome of `applyWatermarkToImage(img.originalFile,
logo, settings)` for the item: `.ok url` on resolution, `.error msg` on
rejection (with `msg` already the extracted message, line 127). -/
def processOne (run : ProcessedImage → Except String String)
    (img : ProcessedImage) : ProcessedImage :=
  match run img with
  | .ok url => { img with previewUrl := url, status := .done, errorMessage := none }
  | .error msg => { img with status := .error, errorMessage := some msg }

/-- The whole `Promise.all(images.map(...))` (App.tsx 122–130): every item is
mapped independently through `processOne`; no outcome aborts the others. -/
def processBatch (run : ProcessedImage → Except String String)
    (images : List ProcessedImage) : List ProcessedImage :=
  images.map (processOne run)

/-- JavaScript `m || fallback` on an optional string: `||` substitutes the
fallback for ANY falsy left operand, i.e. both for an absent string and for
the empty string. -/
def jsStringOr (m : Option String) (fallback : String) : String :=
  match m with
  | none => fallback
  | some s => if s = "" then fallback else s

/-- The failures list (App.tsx 136–142): the error items, in list order, each
projected to `(id, name, errorMessage || "Unknown Error")` — the `||`
fallback fires on an absent message and on an empty one alike. -/
def batchFailures (processed : List ProcessedImage) : List BatchFailure :=
  (processed.filter fun img => img.status == ItemStatus.error).map fun img =>
    ⟨img.id, img.name, jsStringOr img.errorMessage "Unknown Error"⟩

/-- The aggregate report (App.tsx 144–152): produced only when at least one
failure occurred, with `success = total − number of failures`. -/
def batchReport (processed : List ProcessedImage) : Option BatchReport :=
  let failures := batchFailures processed
  if failures.length > 0 then
    some ⟨processed.length, processed.length - failures.length, failures⟩
  else none

/-- Item creation in `handleImagesSelected` (App.tsx 56–62): a fresh id, the
selected file, an empty preview URL and status `pending`. -/
def mkBatchItem (id name : String) : ProcessedImage :=
  { id := id, name := name, previewUrl := "", status := .pending, errorMessage := none }

/-- The function `executeBatchProcessing` updates the `images` state exactly once, with the
single `setImages(processed)` of App.tsx line 132; the per-item `status`
observable over a batch run therefore takes exactly two values: the one before
the run and the one after. -/
def batchStatusTrace (run : ProcessedImage → Except String String)
    (images : List ProcessedImage) : List (List ItemStatus) :=
  [images.map (·.status), (processBatch run images).map (·.status)]

/-! ## Live preview debounce (App.tsx 83–111) -/

/-- The debounced preview effect: every settings/selection/logo change re-runs
the effect, whose cleanup clears the previous 200ms timer and which schedules a
new one (App.tsx 108–109).  For changes at increasing times, the timer of a
change fires iff no further change arrives strictly within 200ms; the last
change's timer always fires.  `debouncedFires` returns, in order, the changes
whose compositing invocation actually runs.  Payloads `α` are the settings
snapshot captured by the change. -/
def debouncedFires {α : Type} : List (ℚ × α) → List (ℚ × α)
  | [] => []
  | [e] => [e]
  | e1 :: e2 :: rest =>
      if e2.1 - e1.1 < 200 then debouncedFires (e2 :: rest)
      else e1 :: debouncedFires (e2 :: rest)

/-- Arrival of preview results: `generatePreview` calls
`setPreviewResult(url)` unconditionally when its compositor promise resolves
(App.tsx 99–100), and the effect cleanup clears only the debounce timer, never
an in-flight promise.  `previewResult` after a sequence of completions is
therefore the payload of the last completion to arrive.  A completion is
`(issue index of the request, produced url)`, listed in arrival order. -/
def applyCompletions (completions : List (ℕ × String)) : Option String :=
  completions.foldl (fun _ c => some c.2) none

/-! ## Settings persistence (App.tsx 19–48) -/

/-- The documented default settings record (App.tsx 28–38). -/
def defaultSettings : WatermarkSettings :=
  { opacity := 80
    scale := 20
    position := .bottomRight
    margin := 3
    outputFormat := .jpeg
    shadow := false
    brightness := 100
    contrast := 100
    saturation := 100 }

/-- JSON values, for the persisted settings blob. -/
inductive Json
  | num (q : ℚ)
  | str (s : String)
  | jbool (b : Bool)
  | obj (fields : List (String × Json))
  | null

/-- The serialised form of each `position` value. -/
def positionToString : Position → String
  | .center => "center"
  | .topLeft => "top-left"
  | .topRight => "top-right"
  | .bottomLeft => "bottom-left"
  | .bottomRight => "bottom-right"
  | .tiled => "tiled"

/-- Reading a `position` value back from its serialised form. -/
def positionFromString (s : String) : Option Position :=
  if s = "center" then some .center
  else if s = "top-left" then some .topLeft
  else if s = "top-right" then some .topRight
  else if s = "bottom-left" then some .bottomLeft
  else if s = "bottom-right" then some .bottomRight
  else if s = "tiled" then some .tiled
  else none

/-- The serialised form of each `outputFormat` value. -/
def formatToString : OutputFormat → String
  | .jpeg => "image/jpeg"
  | .png => "image/png"
  | .webp => "image/webp"

/-- Reading an `outputFormat` value back from its serialised form. -/
def formatFromString (s : String) : Option OutputFormat :=
  if s = "image/jpeg" then some .jpeg
  else if s = "image/png" then some .png
  else if s = "image/webp" then some .webp
  else none

/-- Serialisation `JSON.stringify(settings)` (handleSaveSettings, App.tsx 43), modelled at
the JSON-value level: stringify and parse are mutually inverse on JSON values,
so the stored blob is represented by the value it parses back to.  Fields in
the order of the settings object literal. -/
def encodeSettings (s : WatermarkSettings) : Json :=
  .obj [("opacity", .num s.opacity),
        ("scale", .num s.scale),
        ("position", .str (positionToString s.position)),
        ("margin", .num s.margin),
        ("outputFormat", .str (formatToString s.outputFormat)),
        ("shadow", .jbool s.shadow),
        ("brightness", .num s.brightness),
        ("contrast", .num s.contrast),
        ("saturation", .num s.saturation)]

/-- Typed read-out of a parsed settings object: each field looked up by name
and projected at its expected type.  (The JavaScript `return JSON.parse(saved)`
performs no shape validation — it simply uses the parsed object as the
settings record; `decodeSettings` is that structural read-out, which on any
blob produced by `encodeSettings` recovers the record.) -/
def decodeSettings : Json → Option WatermarkSettings
  | .obj fields => do
      let getF := fun (k : String) => (fields.lookup k)
      let op ← match getF "opacity" with | some (.num q) => some q | _ => none
      let sc ← match getF "scale" with | some (.num q) => some q | _ => none
      let pos ← match getF "position" with
                | some (.str v) => positionFromString v
                | _ => none
      let mg ← match getF "margin" with | some (.num q) => some q | _ => none
      let fmt ← match getF "outputFormat" with
                | some (.str v) => formatFromString v
                | _ => none
      let sh ← match getF "shadow" with | some (.jbool b) => some b | _ => none
      let br ← match getF "brightness" with | some (.num q) => some q | _ => none
      let ct ← match getF "contrast" with | some (.num q) => some q | _ => none
      let sa ← match getF "saturation" with | some (.num q) => some q | _ => none
      pure ⟨op, sc, pos, mg, fmt, sh, br, ct, sa⟩
  | _ => none

/-- The settings initialiser (App.tsx 19–39).  `stored` is the
`localStorage.getItem('maasai-watermark-settings')` cell: `none` when no blob
was ever saved, `some (.error e)` when a blob is present but `JSON.parse`
throws (the `catch` falls through to the defaults), `some (.ok j)` when it
parses to the JSON value `j`. -/
def loadSettings (stored : Option (Except String Json)) : WatermarkSettings :=
  match stored with
  | some (.ok j) => (decodeSettings j).getD defaultSettings
  | some (.error _) => defaultSettings
  | none => defaultSettings

/-! ## Download filenames (App.tsx 160–168) -/

/-- The index of the last `'.'` in a character list
(`String.prototype.lastIndexOf('.')`: `none` plays the role of `-1`). -/
def lastDotIdx : List Char → Option ℕ
  | [] => none
  | c :: rest =>
      match lastDotIdx rest with
      | some i => some (i + 1)
      | none => if c = '.' then some 0 else none

/-- App.tsx line 167:
`name.substring(0, name.lastIndexOf('.')) || name` — `substring(0, -1)`
clamps to the empty string, and the `||` falls back to the full name whenever
the truncation is empty. -/
def stripExtensionJS (name : String) : String :=
  let t : String :=
    match lastDotIdx name.data with
    | none => ""
    | some i => ⟨name.data.take i⟩
  if t = "" then name else t

/-- App.tsx lines 162–164: `let ext = 'jpg'` overridden for png and webp. -/
def extForFormat (fmt : OutputFormat) : String :=
  if fmt = .png then "png"
  else if fmt = .webp then "webp"
  else "jpg"

/-- App.tsx line 168: the `download` attribute of the generated link. -/
def downloadFileName (name : String) (fmt : OutputFormat) : String :=
  "watermarked-" ++ stripExtensionJS name ++ "." ++ extForFormat fmt

/-! ## Theorems -/

/-- C2: for every non-tiled position, the compositor draws the logo exactly
once, with draw width `W * scale / 100`, draw height `drawWidth * (lh / lw)`,
at the top-left coordinate given by the specification's placement table
(`claimedNonTiledPos`). -/
theorem nonTiled_logo_placement (n : String) (img logo : Raster)
    (s : WatermarkSettings) (hp : s.position ≠ Position.tiled)
    (hw : img.width ≤ 16384) (hh : img.height ≤ 16384)
    (hw0 : img.width ≠ 0) (hh0 : img.height ≠ 0) :
    applyWatermark n img logo s =
      .ok [DrawCmd.drawSource (srcFilterOf s),
           DrawCmd.drawLogo
             (claimedNonTiledPos img.width img.height (img.width * s.scale / 100)
               (img.width * s.scale / 100 * (logo.height / logo.width)) s.margin
               s.position).1
             (claimedNonTiledPos img.width img.height (img.width * s.scale / 100)
               (img.width * s.scale / 100 * (logo.height / logo.width)) s.margin
               s.position).2
             (img.width * s.scale / 100)
             (img.width * s.scale / 100 * (logo.height / logo.width))
             (s.opacity / 100) (shadowCfgOf img s) none] := by
  have h1 : ¬(img.width > 16384 ∨ img.height > 16384) := by
    push_neg
    exact ⟨hw, hh⟩
  have h2 : ¬(img.width = 0 ∨ img.height = 0) := by
    simp [hw0, hh0]
  simp only [applyWatermark, if_neg h1, if_neg h2, if_neg hp]
  cases hpos : s.position <;>
    simp_all [nonTiledPos, claimedNonTiledPos]

/-- Witness for C2 at a concrete input: a 100×80 source, a 10×5 logo, default
settings with position `center` give a single logo draw of size 20×10 at
(40, 35). -/
theorem nonTiled_logo_placement_witness :
    applyWatermark "c.png" ⟨100, 80⟩ ⟨10, 5⟩
        ⟨80, 20, .center, 3, .jpeg, false, 100, 100, 100⟩ =
      .ok [DrawCmd.drawSource none,
           DrawCmd.drawLogo 40 35 20 10 (4 / 5) none none] := by
  have h := nonTiled_logo_placement "c.png" ⟨100, 80⟩ ⟨10, 5⟩
    ⟨80, 20, .center, 3, .jpeg, false, 100, 100, 100⟩
    (by decide) (by norm_num) (by norm_num) (by norm_num) (by norm_num)
  rw [h]
  norm_num [claimedNonTiledPos, srcFilterOf, shadowCfgOf]

/-- C3 counterexample: a source of width 0 and height 16385 does NOT fail with
`InvalidDimensions` — the oversize check (lines 44–46) runs first, so the
thrown error is `ImageTooLarge`. -/
theorem zero_width_oversize_not_invalidDimensions :
    applyWatermark "img.png" ⟨0, 16385⟩ ⟨10, 10⟩ defaultSettings
      = .error (.imageTooLarge "img.png" 0 16385)
    ∧ applyWatermark "img.png" ⟨0, 16385⟩ ⟨10, 10⟩ defaultSettings
      ≠ .error (.invalidDimensions "img.png") := by
  have h : applyWatermark "img.png" ⟨0, 16385⟩ ⟨10, 10⟩ defaultSettings
      = .error (.imageTooLarge "img.png" 0 16385) := by
    simp only [applyWatermark]
    rw [if_pos (by norm_num)]
  exact ⟨h, by rw [h]; simp⟩

/-- C3 as amended: oversize (either axis above 16384) always fails with
`ImageTooLarge`, whose message contains the attempted dimensions; a zero
width or height fails with `InvalidDimensions` provided neither axis exceeds
16384 (the oversize check takes precedence).  Both failures are returned
error values — catchable rejections, never crashes. -/
theorem dimension_validation (n : String) (img logo : Raster)
    (s : WatermarkSettings) :
    (img.width > 16384 ∨ img.height > 16384 →
      applyWatermark n img logo s = .error (.imageTooLarge n img.width img.height)
      ∧ ∃ before after,
          (WatermarkError.imageTooLarge n img.width img.height).message
            = before ++ (toString img.width ++ "x" ++ toString img.height) ++ after)
  ∧ (img.width ≤ 16384 → img.height ≤ 16384 → img.width = 0 ∨ img.height = 0 →
      applyWatermark n img logo s = .error (.invalidDimensions n)) := by
  constructor
  · intro h
    constructor
    · simp only [applyWatermark]
      rw [if_pos h]
    · refine ⟨"Image \"" ++ n ++ "\" is too large (",
        "). Max allowed dimension is " ++ toString (16384 : ℚ) ++ "px.", ?_⟩
      simp [WatermarkError.message, String.append_assoc]
  · intro hw hh h0
    simp only [applyWatermark]
    rw [if_neg (by push_neg; exact ⟨hw, hh⟩), if_pos h0]

/-- Witness for C3 as amended: a 20000×5 source fails with `ImageTooLarge`
(message carrying "20000x5"), a 0×5 source with `InvalidDimensions`. -/
theorem dimension_validation_witness :
    applyWatermark "big.png" ⟨20000, 5⟩ ⟨10, 10⟩ defaultSettings
      = .error (.imageTooLarge "big.png" 20000 5)
  ∧ applyWatermark "zero.png" ⟨0, 5⟩ ⟨10, 10⟩ defaultSettings
      = .error (.invalidDimensions "zero.png") := by
  refine ⟨?_, ?_⟩
  · exact ((dimension_validation "big.png" ⟨20000, 5⟩ ⟨10, 10⟩ defaultSettings).1
      (by norm_num)).1
  · exact (dimension_validation "zero.png" ⟨0, 5⟩ ⟨10, 10⟩ defaultSettings).2
      (by norm_num) (by norm_num) (Or.inl rfl)

/-- A logo draw found among a source draw followed by logo draws issued with
no filter carries no filter. -/
theorem logoDraw_filter_none_of_mem {x y w h a : ℚ} {sh : Option ShadowCfg}
    {f f0 : Option ColorFilter} {lw lh al : ℚ} {sh0 : Option ShadowCfg}
    {ps : List (ℚ × ℚ)}
    (hmem : DrawCmd.drawLogo x y w h a sh f ∈
      DrawCmd.drawSource f0 ::
        ps.map (fun p => DrawCmd.drawLogo p.1 p.2 lw lh al sh0 none)) :
    f = none := by
  rcases List.mem_cons.mp hmem with hhead | htail
  · exact absurd hhead (by simp)
  · obtain ⟨p, _, hp⟩ := List.mem_map.mp htail
    simp only [DrawCmd.drawLogo.injEq] at hp
    exact hp.2.2.2.2.2.2.symm

/-- C7: with brightness = contrast = saturation = 100 the pipeline is
command-for-command identical to the pipeline with no color filter set at
all; and in every successful run the source draw carries the combined filter
exactly when one of the three differs from 100, while every logo draw carries
no filter (the reset of line 70 precedes all logo draws). -/
theorem filter_noop_and_logo_unfiltered (n : String) (img logo : Raster)
    (s : WatermarkSettings) :
    (s.brightness = 100 → s.contrast = 100 → s.saturation = 100 →
      applyWatermark n img logo s = applyWatermarkNoFilter n img logo s)
  ∧ ((srcFilterOf s).isSome
      ↔ (s.brightness ≠ 100 ∨ s.contrast ≠ 100 ∨ s.saturation ≠ 100))
  ∧ (∀ cmds, applyWatermark n img logo s = .ok cmds →
      ∀ x y w h a sh f, DrawCmd.drawLogo x y w h a sh f ∈ cmds → f = none) := by
  refine ⟨?_, ?_, ?_⟩
  · intro h1 h2 h3
    simp only [applyWatermark, applyWatermarkNoFilter, srcFilterOf, h1, h2, h3]
    simp
  · unfold srcFilterOf
    split_ifs with h
    · simpa using h
    · simpa using h
  · intro cmds hcmds x y w h a sh f hmem
    simp only [applyWatermark] at hcmds
    split_ifs at hcmds
    · rw [Except.ok.injEq] at hcmds
      exact logoDraw_filter_none_of_mem (hcmds ▸ hmem)
    · rw [Except.ok.injEq] at hcmds
      exact logoDraw_filter_none_of_mem (hcmds ▸ hmem)

/-- Witness for C7: at the default settings (all three at 100) on a concrete
source and logo the two pipelines agree, and the logo draw of the concrete
run carries no filter. -/
theorem filter_noop_witness :
    applyWatermark "a.png" ⟨100, 80⟩ ⟨10, 5⟩ defaultSettings
      = applyWatermarkNoFilter "a.png" ⟨100, 80⟩ ⟨10, 5⟩ defaultSettings := by
  exact (filter_noop_and_logo_unfiltered "a.png" ⟨100, 80⟩ ⟨10, 5⟩
    defaultSettings).1 rfl rfl rfl

/-- Multiplying a finite double by a non-finite one never yields a finite
value. -/
theorem jsMul_not_finite (a : ℚ) (v : JSVal) (hv : v.isFinite = false) :
    (jsMul a v).isFinite = false := by
  cases v with
  | fin q => simp [JSVal.isFinite] at hv
  | posInf => unfold jsMul; split_ifs <;> rfl
  | negInf => unfold jsMul; split_ifs <;> rfl
  | nan => rfl

/-- Dividing a finite double by zero never yields a finite value. -/
theorem jsDiv_zero_not_finite (a : ℚ) : (jsDiv a 0).isFinite = false := by
  unfold jsDiv
  split_ifs <;> simp_all [JSVal.isFinite]

/-- C9: the dimension validation applies only to the source raster — for any
logo raster whatsoever (zero or oversized axes included) the compositor still
succeeds; and with a zero-width logo the JavaScript aspect ratio
`logo.height / logo.width` is non-finite (Infinity or NaN) and propagates
into the computed logo draw height, which is likewise non-finite and is never
rejected. -/
theorem logo_dimensions_never_validated (n : String) (img logo : Raster)
    (s : WatermarkSettings)
    (hw : img.width ≤ 16384) (hh : img.height ≤ 16384)
    (hw0 : img.width ≠ 0) (hh0 : img.height ≠ 0) :
    (∃ cmds, applyWatermark n img logo s = .ok cmds)
  ∧ (logo.width = 0 →
      (jsDiv logo.height logo.width).isFinite = false
      ∧ (logoDrawHeightJS img.width s.scale logo.width logo.height).isFinite
          = false) := by
  constructor
  · simp only [applyWatermark]
    rw [if_neg (by push_neg; exact ⟨hw, hh⟩), if_neg (by simp [hw0, hh0])]
    exact ⟨_, rfl⟩
  · intro h0
    rw [h0]
    refine ⟨jsDiv_zero_not_finite _, ?_⟩
    exact jsMul_not_finite _ _ (jsDiv_zero_not_finite _)

/-- Witness for C9: an 800×600 source with a 0×50 logo (zero width, which
would be rejected were it the source) composites successfully, and the
computed logo draw height is non-finite. -/
theorem logo_dimensions_never_validated_witness :
    (∃ cmds,
      applyWatermark "a.png" ⟨800, 600⟩ ⟨0, 50⟩ defaultSettings = .ok cmds)
  ∧ (logoDrawHeightJS 800 20 0 50).isFinite = false := by
  have h := logo_dimensions_never_validated "a.png" ⟨800, 600⟩ ⟨0, 50⟩
    defaultSettings (by norm_num) (by norm_num) (by norm_num) (by norm_num)
  exact ⟨h.1, (h.2 rfl).2⟩

/-- The JavaScript loop `for (v = 0; v < limit; v += step)` with positive step
visits exactly the multiples `i * step` with `i * step < limit`. -/
theorem lt_stepCount_iff {limit step : ℚ} (hs : 0 < step) (i : ℕ) :
    i < stepCount limit step ↔ (i : ℚ) * step < limit := by
  unfold stepCount
  rw [if_pos hs, Int.lt_toNat, Int.lt_ceil, lt_div_iff₀ hs]
  push_cast
  rfl

/-- With positive step and positive limit, the visited multiples reach the
limit: one more step would pass it, i.e. the grid covers the canvas. -/
theorem stepCount_mul_ge {limit step : ℚ} (hs : 0 < step) (hl : 0 < limit) :
    limit ≤ (stepCount limit step : ℚ) * step := by
  unfold stepCount
  rw [if_pos hs]
  have hnn : (0 : ℤ) ≤ ⌈limit / step⌉ := Int.ceil_nonneg (le_of_lt (div_pos hl hs))
  have hcast : ((⌈limit / step⌉.toNat : ℕ) : ℚ) = ((⌈limit / step⌉ : ℤ) : ℚ) := by
    rw [← Int.cast_natCast, Int.toNat_of_nonneg hnn]
  rw [hcast]
  have h1 : limit / step ≤ ((⌈limit / step⌉ : ℤ) : ℚ) := Int.le_ceil _
  calc limit = limit / step * step := by field_simp
    _ ≤ ((⌈limit / step⌉ : ℤ) : ℚ) * step := mul_le_mul_of_nonneg_right h1 hs.le

/-- C6: at `position = tiled` the compositor emits one logo draw per grid
point; the grid starts at (0, 0), its points are exactly the multiples of the
horizontal step `dw * 1.5` and the vertical step `dw * 1.5 * aspect` lying
inside the canvas, the grid covers the whole canvas in both axes, and the
output is identical for any two margin values. -/
theorem tiled_grid (n : String) (img logo : Raster) (s : WatermarkSettings)
    (hp : s.position = Position.tiled)
    (hw : img.width ≤ 16384) (hh : img.height ≤ 16384)
    (hw0 : 0 < img.width) (hh0 : 0 < img.height)
    (hdw : 0 < img.width * s.scale / 100)
    (har : 0 < logo.height / logo.width) :
    applyWatermark n img logo s =
      .ok (DrawCmd.drawSource (srcFilterOf s) ::
        (tiledPositionList img (img.width * s.scale / 100)
            (logo.height / logo.width)).map
          fun p => DrawCmd.drawLogo p.1 p.2 (img.width * s.scale / 100)
            (img.width * s.scale / 100 * (logo.height / logo.width))
            (s.opacity / 100) (shadowCfgOf img s) none)
  ∧ ((0 : ℚ), (0 : ℚ)) ∈ tiledPositionList img (img.width * s.scale / 100)
      (logo.height / logo.width)
  ∧ (∀ p : ℚ × ℚ,
      p ∈ tiledPositionList img (img.width * s.scale / 100)
          (logo.height / logo.width)
        ↔ ∃ i j : ℕ,
            p = ((i : ℚ) * (img.width * s.scale / 100 * 1.5),
                 (j : ℚ) * (img.width * s.scale / 100 * 1.5 *
                    (logo.height / logo.width)))
            ∧ (i : ℚ) * (img.width * s.scale / 100 * 1.5) < img.width
            ∧ (j : ℚ) * (img.width * s.scale / 100 * 1.5 *
                (logo.height / logo.width)) < img.height)
  ∧ img.width ≤ (stepCount img.width (img.width * s.scale / 100 * 1.5) : ℚ) *
      (img.width * s.scale / 100 * 1.5)
  ∧ img.height ≤ (stepCount img.height (img.width * s.scale / 100 * 1.5 *
        (logo.height / logo.width)) : ℚ) *
      (img.width * s.scale / 100 * 1.5 * (logo.height / logo.width))
  ∧ ∀ m1 m2 : ℚ,
      applyWatermark n img logo { s with margin := m1 }
        = applyWatermark n img logo { s with margin := m2 } := by
  have hgx : 0 < img.width * s.scale / 100 * 1.5 := by positivity
  have hgy : 0 < img.width * s.scale / 100 * 1.5 * (logo.height / logo.width) :=
    mul_pos hgx har
  have hmem : ∀ p : ℚ × ℚ,
      p ∈ tiledPositionList img (img.width * s.scale / 100)
          (logo.height / logo.width)
        ↔ ∃ i j : ℕ,
            p = ((i : ℚ) * (img.width * s.scale / 100 * 1.5),
                 (j : ℚ) * (img.width * s.scale / 100 * 1.5 *
                    (logo.height / logo.width)))
            ∧ (i : ℚ) * (img.width * s.scale / 100 * 1.5) < img.width
            ∧ (j : ℚ) * (img.width * s.scale / 100 * 1.5 *
                (logo.height / logo.width)) < img.height := by
    intro p
    unfold tiledPositionList
    constructor
    · intro hpmem
      obtain ⟨i, hi, hpin⟩ := List.mem_flatMap.mp hpmem
      obtain ⟨j, hj, hpe⟩ := List.mem_map.mp hpin
      rw [List.mem_range] at hi hj
      refine ⟨i, j, hpe.symm.trans ?_, (lt_stepCount_iff hgx i).mp hi,
        (lt_stepCount_iff hgy j).mp hj⟩
      ring_nf
    · rintro ⟨i, j, rfl, hi, hj⟩
      refine List.mem_flatMap.mpr ⟨i,
        List.mem_range.mpr ((lt_stepCount_iff hgx i).mpr hi),
        List.mem_map.mpr ⟨j,
          List.mem_range.mpr ((lt_stepCount_iff hgy j).mpr hj), ?_⟩⟩
      ring_nf
  refine ⟨?_, ?_, hmem, ?_, ?_, ?_⟩
  · simp only [applyWatermark]
    rw [if_neg (by push_neg; exact ⟨hw, hh⟩),
        if_neg (by simp [ne_of_gt hw0, ne_of_gt hh0]), if_pos hp]
  · rw [hmem]
    exact ⟨0, 0, by norm_num, by simpa using hw0, by simpa using hh0⟩
  · exact stepCount_mul_ge hgx hw0
  · exact stepCount_mul_ge hgy hh0
  · intro m1 m2
    simp [applyWatermark, hp, srcFilterOf, shadowCfgOf]

/-- Witness for C6 at a concrete input: a 100×80 source, a 10×5 logo (aspect
1/2), default settings at position `tiled` (draw width 20, horizontal step 30,
vertical step 15): (0, 0) is a grid point and margins 0 and 20 give identical
output. -/
theorem tiled_grid_witness :
    ((0 : ℚ), (0 : ℚ)) ∈ tiledPositionList ⟨100, 80⟩ (100 * 20 / 100) (5 / 10)
  ∧ applyWatermark "t.png" ⟨100, 80⟩ ⟨10, 5⟩
      ⟨80, 20, .tiled, 0, .jpeg, false, 100, 100, 100⟩
    = applyWatermark "t.png" ⟨100, 80⟩ ⟨10, 5⟩
      ⟨80, 20, .tiled, 20, .jpeg, false, 100, 100, 100⟩ := by
  have h := tiled_grid "t.png" ⟨100, 80⟩ ⟨10, 5⟩
    ⟨80, 20, .tiled, 3, .jpeg, false, 100, 100, 100⟩
    rfl (by norm_num) (by norm_num) (by norm_num) (by norm_num)
    (by norm_num) (by norm_num)
  exact ⟨h.2.1, h.2.2.2.2.2 0 20⟩

/-- Unfolding `processOne` on a resolved compositor call. -/
theorem processOne_ok {run : ProcessedImage → Except String String}
    {a : ProcessedImage} {u : String} (h : run a = .ok u) :
    processOne run a
      = { a with previewUrl := u, status := .done, errorMessage := none } := by
  unfold processOne
  rw [h]

/-- Unfolding `processOne` on a rejected compositor call. -/
theorem processOne_error {run : ProcessedImage → Except String String}
    {a : ProcessedImage} {m : String} (h : run a = .error m) :
    processOne run a = { a with status := .error, errorMessage := some m } := by
  unfold processOne
  rw [h]

/-- Over a chunk whose items all resolve, every processed item has status
`done` and none has status `error`. -/
theorem processBatch_ok_chunk (run : ProcessedImage → Except String String)
    (l : List ProcessedImage) (h : ∀ a ∈ l, ∃ u, run a = .ok u) :
    ((l.map (processOne run)).filter
        fun i => i.status == ItemStatus.done) = l.map (processOne run)
  ∧ ((l.map (processOne run)).filter
        fun i => i.status == ItemStatus.error) = [] := by
  constructor
  · refine List.filter_eq_self.mpr ?_
    intro b hb
    obtain ⟨a, ha, rfl⟩ := List.mem_map.mp hb
    obtain ⟨u, hu⟩ := h a ha
    rw [processOne_ok hu]
    rfl
  · refine List.filter_eq_nil_iff.mpr ?_
    intro b hb
    obtain ⟨a, ha, rfl⟩ := List.mem_map.mp hb
    obtain ⟨u, hu⟩ := h a ha
    rw [processOne_ok hu]
    simp

/-- C1: in a batch of `N = pre.length + 1 + post.length ≥ 1` items where
exactly the item `bad` rejects (with message `msg`) and every other item
resolves, the run ends with `N − 1` items in status `done` (each carrying its
output URL), one item in status `error` carrying its message, and the
aggregate report `{total := N, success := N − 1, failures := [bad's entry]}`;
when every item resolves, no aggregate report is produced; and each item's
result is a function of that item's own compositor outcome alone.  The
message is assumed non-empty, as is every message the compositor can throw;
for an empty one the `||` fallback of App.tsx 141 would report
"Unknown Error" instead. -/
theorem batch_single_failure (run : ProcessedImage → Except String String)
    (pre : List ProcessedImage) (bad : ProcessedImage)
    (post : List ProcessedImage) (msg : String) (hmsg : msg ≠ "")
    (hpre : ∀ a ∈ pre, ∃ u, run a = .ok u)
    (hbad : run bad = .error msg)
    (hpost : ∀ a ∈ post, ∃ u, run a = .ok u) :
    ((processBatch run (pre ++ bad :: post)).filter
        fun i => i.status == ItemStatus.done).length = pre.length + post.length
  ∧ ((processBatch run (pre ++ bad :: post)).filter
        fun i => i.status == ItemStatus.error).length = 1
  ∧ (∀ a ∈ pre ++ post, ∃ u, run a = .ok u ∧ processOne run a
        = { a with previewUrl := u, status := .done, errorMessage := none })
  ∧ processOne run bad = { bad with status := .error, errorMessage := some msg }
  ∧ batchReport (processBatch run (pre ++ bad :: post))
      = some ⟨pre.length + post.length + 1, pre.length + post.length,
              [⟨bad.id, bad.name, msg⟩]⟩
  ∧ (∀ (run2 : ProcessedImage → Except String String)
        (imgs : List ProcessedImage),
      (∀ a ∈ imgs, ∃ u, run2 a = .ok u) →
      batchReport (processBatch run2 imgs) = none)
  ∧ (∀ (run2 : ProcessedImage → Except String String) (a : ProcessedImage),
      run2 a = run a → processOne run2 a = processOne run a) := by
  have hsplit : processBatch run (pre ++ bad :: post)
      = pre.map (processOne run)
        ++ processOne run bad :: post.map (processOne run) := by
    simp [processBatch]
  have hbadstat : processOne run bad
      = { bad with status := .error, errorMessage := some msg } :=
    processOne_error hbad
  have hfiltDone : ((processBatch run (pre ++ bad :: post)).filter
      fun i => i.status == ItemStatus.done)
        = pre.map (processOne run) ++ post.map (processOne run) := by
    rw [hsplit, List.filter_append, List.filter_cons,
      (processBatch_ok_chunk run pre hpre).1,
      (processBatch_ok_chunk run post hpost).1]
    rw [hbadstat]
    simp
  have hfiltErr : ((processBatch run (pre ++ bad :: post)).filter
      fun i => i.status == ItemStatus.error)
        = [{ bad with status := .error, errorMessage := some msg }] := by
    rw [hsplit, List.filter_append, List.filter_cons,
      (processBatch_ok_chunk run pre hpre).2,
      (processBatch_ok_chunk run post hpost).2]
    rw [hbadstat]
    simp
  have hfails : batchFailures (processBatch run (pre ++ bad :: post))
      = [⟨bad.id, bad.name, msg⟩] := by
    unfold batchFailures
    rw [hfiltErr]
    simp [jsStringOr, hmsg]
  have hlen : (processBatch run (pre ++ bad :: post)).length
      = pre.length + post.length + 1 := by
    simp [processBatch]
    omega
  refine ⟨?_, ?_, ?_, hbadstat, ?_, ?_, ?_⟩
  · rw [hfiltDone]
    simp
  · rw [hfiltErr]
    rfl
  · intro a ha
    rcases List.mem_append.mp ha with h | h
    · obtain ⟨u, hu⟩ := hpre a h
      exact ⟨u, hu, processOne_ok hu⟩
    · obtain ⟨u, hu⟩ := hpost a h
      exact ⟨u, hu, processOne_ok hu⟩
  · unfold batchReport
    rw [hfails, hlen]
    simp
  · intro run2 imgs hok
    unfold batchReport
    have : batchFailures (processBatch run2 imgs) = [] := by
      unfold batchFailures processBatch
      rw [(processBatch_ok_chunk run2 imgs hok).2]
      rfl
    rw [this]
    simp
  · intro run2 a h
    unfold processOne
    rw [h]

/-- Witness for C1: three items, of which the second rejects with "boom";
the aggregate report is `{total := 3, success := 2, failures := [the second
item's entry]}`. -/
theorem batch_single_failure_witness :
    batchReport (processBatch
      (fun img => if img.id = "2" then .error "boom" else .ok ("blob:" ++ img.id))
      [mkBatchItem "1" "a.png", mkBatchItem "2" "b.png", mkBatchItem "3" "c.png"])
      = some ⟨3, 2, [⟨"2", "b.png", "boom"⟩]⟩ := by
  have h := batch_single_failure
    (fun img => if img.id = "2" then .error "boom" else .ok ("blob:" ++ img.id))
    [mkBatchItem "1" "a.png"] (mkBatchItem "2" "b.png") [mkBatchItem "3" "c.png"]
    "boom" (by decide)
    (by intro a ha
        rw [List.mem_singleton] at ha
        subst ha
        exact ⟨"blob:1", by decide⟩)
    (by decide)
    (by intro a ha
        rw [List.mem_singleton] at ha
        subst ha
        exact ⟨"blob:3", by decide⟩)
  simpa using h.2.2.2.2.1

/-- C4 counterexample: a batch run over one pending item that composites
successfully produces the per-item status trace `[pending] → [done]`; the
value 'processing' never appears — `executeBatchProcessing` performs its
single state update only after all compositor calls settle, and no code path
ever assigns `status: 'processing'`. -/
theorem processing_status_never_assigned_cex :
    batchStatusTrace (fun _ => .ok "blob:out") [mkBatchItem "a" "a.png"]
      = [[ItemStatus.pending], [ItemStatus.done]]
  ∧ ItemStatus.processing
      ∉ ([[ItemStatus.pending], [ItemStatus.done]] : List (List ItemStatus)).flatten := by
  constructor
  · rfl
  · decide

/-- C4 as amended: items are created with status `pending`
(`handleImagesSelected`); a batch run moves every current item directly to
`done` or `error` in the orchestrator's single state update, with no
intermediate `processing` step (the declared `processing` value is never
assigned); the fresh outcome is determined by the item's own compositor
result alone, so re-running overwrites a prior `done`/`error` with a fresh
result, and no other transition occurs. -/
theorem item_status_machine (run : ProcessedImage → Except String String)
    (images : List ProcessedImage) (id name : String) :
    (mkBatchItem id name).status = .pending
  ∧ ((processBatch run images).all
      fun i => i.status == ItemStatus.done || i.status == ItemStatus.error) = true
  ∧ (∀ j u, run j = .ok u → (processOne run j).status = .done)
  ∧ (∀ j m, run j = .error m → (processOne run j).status = .error)
  ∧ batchStatusTrace run images
      = [images.map (·.status), (processBatch run images).map (·.status)] := by
  refine ⟨rfl, ?_, ?_, ?_, rfl⟩
  · rw [List.all_eq_true]
    intro x hx
    obtain ⟨a, _, rfl⟩ := List.mem_map.mp hx
    unfold processOne
    cases run a <;> simp
  · intro j u h
    rw [processOne_ok h]
  · intro j m h
    rw [processOne_error h]

/-- Witness for C4 as amended: item creation yields `pending`; a resolving
compositor yields `done`; a rejecting one on an item previously `done` yields
a fresh `error` (re-run overwrites). -/
theorem item_status_machine_witness :
    (mkBatchItem "w" "w.png").status = .pending
  ∧ (processOne (fun _ => .ok "blob:w") (mkBatchItem "w" "w.png")).status = .done
  ∧ (processOne (fun _ => .error "x")
      { mkBatchItem "w" "w.png" with status := .done }).status = .error := by
  refine ⟨(item_status_machine (fun _ => .ok "blob:w") [] "w" "w.png").1, ?_, ?_⟩
  · exact (item_status_machine (fun _ => .ok "blob:w") [] "w" "w.png").2.2.1
      (mkBatchItem "w" "w.png") "blob:w" rfl
  · exact (item_status_machine (fun _ => .error "x") [] "w" "w.png").2.2.2.1
      { mkBatchItem "w" "w.png" with status := .done } "x" rfl

/-- C5 counterexample: two preview requests, issued in order 1 then 2; request
2's result arrives first, then request 1's stale result arrives.  The
displayed preview is request 1's result — the older, superseded request's
result is shown, because `setPreviewResult` runs unconditionally on every
completion and the effect cleanup clears only the debounce timer, never an
in-flight request. -/
theorem stale_preview_result_displayed_cex :
    applyCompletions [(2, "blob:new"), (1, "blob:old")] = some "blob:old"
  ∧ (1 : ℕ) < 2
  ∧ "blob:old" ≠ "blob:new" := by
  refine ⟨rfl, by norm_num, by decide⟩

/-- In the debounce recursion, the surviving invocation list for a burst whose
gaps are all under 200ms is the last change alone. -/
theorem debouncedFires_burst {α : Type} (e : ℚ × α) (rest : List (ℚ × α))
    (h : List.Chain' (fun a b => b.1 - a.1 < 200) (e :: rest)) :
    debouncedFires (e :: rest)
      = [(e :: rest).getLast (List.cons_ne_nil e rest)] := by
  induction rest generalizing e with
  | nil => rfl
  | cons e2 rest ih =>
      have h1 : e2.1 - e.1 < 200 := (List.chain'_cons.mp h).1
      have h2 := (List.chain'_cons.mp h).2
      rw [List.getLast_cons (List.cons_ne_nil e2 rest)]
      rw [← ih e2 h2]
      show (if e2.1 - e.1 < 200 then debouncedFires (e2 :: rest)
            else e :: debouncedFires (e2 :: rest)) = debouncedFires (e2 :: rest)
      rw [if_pos h1]

/-- C5 as amended: a burst of rapid changes whose consecutive gaps are all
under the 200ms quiet period results in exactly one compositing invocation,
carrying the final change's settings (this half of the claim holds); but an
in-flight stale request's result is NOT discarded on arrival — the displayed
preview is always the last completion to arrive, whichever request it belongs
to (last-arrival-wins, not latest-request-wins). -/
theorem preview_debounce_and_last_arrival
    (e : ℚ × WatermarkSettings) (rest : List (ℚ × WatermarkSettings))
    (h : List.Chain' (fun a b => b.1 - a.1 < 200) (e :: rest)) :
    debouncedFires (e :: rest)
      = [(e :: rest).getLast (List.cons_ne_nil e rest)]
  ∧ ∀ (completions : List (ℕ × String)) (c : ℕ × String),
      applyCompletions (completions ++ [c]) = some c.2 := by
  refine ⟨debouncedFires_burst e rest h, ?_⟩
  intro completions c
  unfold applyCompletions
  rw [List.foldl_append]
  rfl

/-- Witness for C5 as amended: a burst of three settings changes at t = 0,
100, 150 (gaps 100ms and 50ms) fires exactly one invocation, with the last
settings value (opacity 30); and after completions for requests 1 then 2, the
displayed result is request 2's. -/
theorem preview_debounce_and_last_arrival_witness :
    debouncedFires
      [((0 : ℚ), { defaultSettings with opacity := 10 }),
       ((100 : ℚ), { defaultSettings with opacity := 20 }),
       ((150 : ℚ), { defaultSettings with opacity := 30 })]
      = [((150 : ℚ), { defaultSettings with opacity := 30 })]
  ∧ applyCompletions [(1, "blob:a"), (2, "blob:b")] = some "blob:b" := by
  have h := preview_debounce_and_last_arrival
    ((0 : ℚ), { defaultSettings with opacity := 10 })
    [((100 : ℚ), { defaultSettings with opacity := 20 }),
     ((150 : ℚ), { defaultSettings with opacity := 30 })]
    (by
      refine List.chain'_cons.mpr ⟨by norm_num, ?_⟩
      refine List.chain'_cons.mpr ⟨by norm_num, ?_⟩
      exact List.chain'_singleton _)
  refine ⟨?_, ?_⟩
  · rw [h.1]
    rfl
  · exact h.2 [(1, "blob:a")] (2, "blob:b")

/-- C8: loading with no stored blob, or with a stored blob that fails to
parse, yields exactly the documented default record; and for every settings
record, saving it (serialising every field) and loading in a fresh session
recovers a record equal to what was saved. -/
theorem settings_defaults_and_roundtrip (s : WatermarkSettings) (e : String) :
    loadSettings none = defaultSettings
  ∧ loadSettings (some (.error e)) = defaultSettings
  ∧ defaultSettings =
      { opacity := 80, scale := 20, position := .bottomRight, margin := 3,
        outputFormat := .jpeg, shadow := false, brightness := 100,
        contrast := 100, saturation := 100 }
  ∧ loadSettings (some (.ok (encodeSettings s))) = s := by
  refine ⟨rfl, rfl, rfl, ?_⟩
  obtain ⟨op, sc, pos, mg, fmt, sh, br, ct, sa⟩ := s
  cases pos <;> cases fmt <;> rfl

/-- The search `lastIndexOf('.')` reports "absent" exactly when no dot occurs. -/
theorem lastDotIdx_eq_none_iff (l : List Char) :
    lastDotIdx l = none ↔ '.' ∉ l := by
  induction l with
  | nil => simp [lastDotIdx]
  | cons c rest ih =>
      simp only [lastDotIdx, List.mem_cons]
      cases h : lastDotIdx rest with
      | some i =>
          have hmem : '.' ∈ rest := by
            by_contra hnot
            rw [ih.mpr hnot] at h
            exact Option.noConfusion h
          simp [hmem]
      | none =>
          have hnot : '.' ∉ rest := ih.mp h
          by_cases hc : c = '.'
          · subst hc
            simp
          · rw [if_neg hc]
            simp only [true_iff]
            rintro (h1 | h2)
            · exact hc h1.symm
            · exact hnot h2

/-- Having `lastIndexOf('.') = i` means: the character at `i` is a dot and no dot
occurs after it — the list splits as `take i ++ '.' :: drop (i+1)`. -/
theorem lastDotIdx_some (l : List Char) (i : ℕ) (h : lastDotIdx l = some i) :
    l = l.take i ++ '.' :: l.drop (i + 1) ∧ '.' ∉ l.drop (i + 1) := by
  induction l generalizing i with
  | nil => exact Option.noConfusion h
  | cons c rest ih =>
      simp only [lastDotIdx] at h
      cases hr : lastDotIdx rest with
      | some j =>
          rw [hr] at h
          obtain rfl : j + 1 = i := Option.some.inj h
          obtain ⟨hdec, hnot⟩ := ih j hr
          constructor
          · show c :: rest = (c :: rest.take j) ++ '.' :: rest.drop (j + 1)
            rw [List.cons_append]
            exact congrArg (c :: ·) hdec
          · exact hnot
      | none =>
          rw [hr] at h
          by_cases hc : c = '.'
          · rw [if_pos hc] at h
            obtain rfl : 0 = i := Option.some.inj h
            subst hc
            exact ⟨rfl, (lastDotIdx_eq_none_iff rest).mp hr⟩
          · rw [if_neg hc] at h
            exact Option.noConfusion h

/-- C10: the download filename is `watermarked-<base>.<ext>` where the
extension is jpg/png/webp according to the output format, and the base is the
original filename truncated at its last `'.'`; when the name has no dot, or
its only dot is the leading character (empty truncation), the whole original
name is used as the base. -/
theorem download_filename_rule (name : String) (fmt : OutputFormat) :
    (extForFormat .jpeg = "jpg" ∧ extForFormat .png = "png"
      ∧ extForFormat .webp = "webp")
  ∧ downloadFileName name fmt
      = "watermarked-" ++ stripExtensionJS name ++ "." ++ extForFormat fmt
  ∧ ('.' ∉ name.data → stripExtensionJS name = name)
  ∧ (lastDotIdx name.data = some 0 → stripExtensionJS name = name)
  ∧ (∀ i, lastDotIdx name.data = some i →
      (name.data = name.data.take i ++ '.' :: name.data.drop (i + 1)
        ∧ '.' ∉ name.data.drop (i + 1))
      ∧ (0 < i → stripExtensionJS name = String.mk (name.data.take i))) := by
  refine ⟨⟨rfl, rfl, rfl⟩, rfl, ?_, ?_, ?_⟩
  · intro h
    simp [stripExtensionJS, (lastDotIdx_eq_none_iff name.data).mpr h]
  · intro h
    simp [stripExtensionJS, h]
  · intro i h
    refine ⟨lastDotIdx_some name.data i h, ?_⟩
    intro hi
    have hl : name.data ≠ [] := by
      intro h0
      rw [h0] at h
      exact Option.noConfusion h
    have htake : name.data.take i ≠ [] := by
      intro h0
      rcases List.take_eq_nil_iff.mp h0 with h1 | h1
      · omega
      · exact hl h1
    have hne : (⟨name.data.take i⟩ : String) ≠ "" := by
      intro hEq
      exact htake (congrArg String.data hEq)
    simp only [stripExtensionJS, h]
    rw [if_neg hne]

/-- Witness for C10: "photo" (no dot) keeps its full name; ".gitignore"
(leading dot only) keeps its full name, extension included; "a.b.png"
truncates at its last dot. -/
theorem download_filename_rule_witness :
    downloadFileName "photo" .jpeg = "watermarked-photo.jpg"
  ∧ downloadFileName ".gitignore" .webp = "watermarked-.gitignore.webp"
  ∧ downloadFileName "a.b.png" .png = "watermarked-a.b.png" := by
  refine ⟨?_, ?_, ?_⟩
  · have h := (download_filename_rule "photo" OutputFormat.jpeg).2.2.1 (by decide)
    simp only [downloadFileName, h]
    decide
  · have h := (download_filename_rule ".gitignore" OutputFormat.webp).2.2.2.1
      (by decide)
    simp only [downloadFileName, h]
    decide
  · have h := ((download_filename_rule "a.b.png" OutputFormat.png).2.2.2.2 3
      (by decide)).2 (by decide)
    simp only [downloadFileName, h]
    decide

end Watermark
